import Mathlib

/-!
Shallow embedding of the LinDB query-coordination and storage core:
the job manager (`parallel/job_manager.go`), the tag search
(`query/tag_search.go`) and the field store (`tsdb/memdb/field_store.go`),
together with theorems checking the natural-language specification.
-/

namespace LinDB

/-! ## Job manager (parallel/job_manager.go) -/

/-- A routing indicator (node address) of an execution-plan node. -/
abbrev Indicator := String

/-- One node of a physical plan (`models.PhysicalPlan` entry): a routing
indicator plus its expected task count. -/
structure PlanNode where
  indicator : Indicator
  numOfTask : Int
deriving DecidableEq

/-- The execution plan: a root, the intermediate tier and the leaf tier. -/
structure PhysicalPlan where
  root : PlanNode
  intermediates : List PlanNode
  leafs : List PlanNode
deriving DecidableEq

/-- A job context (`JobContext`): carries the plan; the query, result set and
execution context are invisible to the coordination logic modelled here and are
represented by an abstract payload. -/
structure JobContext where
  plan : PhysicalPlan
  payload : Nat
deriving DecidableEq

/-- A value stored in the jobs registry.  The Go registry is a `sync.Map`
holding `interface{}` values: `SubmitJob` stores its `JobContext` argument,
while `SubmitMetadataJob` stores its `context.Context` argument under the
job ID.  Modelled from the spec: `JobContext` (declared outside the given
sources) exposes the plan, the originating query, a result sink and a
cancellation-bearing execution context, so a plain `context.Context` does not
implement it and `GetJob`'s type assertion `job.(JobContext)` fails on such a
stored value. -/
inductive StoredValue where
  | jobCtx (c : JobContext)
  | goContext
deriving DecidableEq

/-- The mutable state of a `jobManager`: the atomic job-ID sequence and the
jobs registry.  The registry is modelled as an association list with the
newest binding first; `Load` returns the first binding of a key, which gives
map semantics. -/
structure JobManager where
  seq : Int
  jobs : List (Int × StoredValue)
deriving DecidableEq

/-- `NewJobManager` starts the sequence at zero with an empty registry. -/
def NewJobManager : JobManager := { seq := 0, jobs := [] }

/-- `sync.Map.Load` on the registry: first binding of the key, if any. -/
def jobsLoad : List (Int × StoredValue) → Int → Option StoredValue
  | [], _ => none
  | (k, v) :: rest, id => if k = id then some v else jobsLoad rest id

/-- `jobManager.GetJob`: load the stored value and type-assert it to
`JobContext`; both a missing key and a failed assertion yield the nil
sentinel, modelled as `none`. -/
def GetJob (j : JobManager) (jobID : Int) : Option JobContext :=
  match jobsLoad j.jobs jobID with
  | none => none
  | some (StoredValue.jobCtx c) => some c
  | some StoredValue.goContext => none

/-- The task-transport environment: `TaskManager.SendRequest` outcome per
routing indicator.  `AllocTaskID` and `Submit` have no effect observable by
the claims and are not tracked. -/
def SendEnv : Type := Indicator → Except String Unit

/-- The dispatch loop shared by both submit paths: send to each target in
list order, stopping at the first failure.  Returns the list of indicators
actually contacted and the first error, if any. -/
def sendAll (send : SendEnv) : List Indicator → List Indicator × Option String
  | [] => ([], none)
  | t :: rest =>
    match send t with
    | Except.error e => ([t], some e)
    | Except.ok _ =>
      let r := sendAll send rest
      (t :: r.1, r.2)

/-- The fan-out tier chosen by `SubmitJob`: the intermediate nodes if any
exist, else the leaf nodes if any exist, else nothing. -/
def dispatchTargets (plan : PhysicalPlan) : List Indicator :=
  if plan.intermediates ≠ [] then plan.intermediates.map PlanNode.indicator
  else if plan.leafs ≠ [] then plan.leafs.map PlanNode.indicator
  else []

/-- Observable outcome of one submit call: the new manager state, the
allocated job ID, the indicators contacted (in order) and the returned
error. -/
structure SubmitOutcome where
  jm : JobManager
  jobID : Int
  sent : List Indicator
  err : Option String
deriving DecidableEq

/-- `jobManager.SubmitJob`: allocate the next job ID, fan out to the chosen
tier, and (by the deferred store) register the job context iff no dispatch
failed. -/
def SubmitJob (j : JobManager) (send : SendEnv) (ctx : JobContext) : SubmitOutcome :=
  let jobID := j.seq + 1
  let r := sendAll send (dispatchTargets ctx.plan)
  let jobs := if r.2 = none then (jobID, StoredValue.jobCtx ctx) :: j.jobs else j.jobs
  { jm := { seq := jobID, jobs := jobs }, jobID := jobID, sent := r.1, err := r.2 }

/-- `jobManager.SubmitMetadataJob`: allocate the next job ID, fan out to the
leaf tier only, and (by the deferred store) register — storing the
`context.Context` argument, not a `JobContext` — iff no dispatch failed. -/
def SubmitMetadataJob (j : JobManager) (send : SendEnv) (plan : PhysicalPlan) : SubmitOutcome :=
  let jobID := j.seq + 1
  let r := sendAll send (plan.leafs.map PlanNode.indicator)
  let jobs := if r.2 = none then (jobID, StoredValue.goContext) :: j.jobs else j.jobs
  { jm := { seq := jobID, jobs := jobs }, jobID := jobID, sent := r.1, err := r.2 }

/-- One submission call made against a job manager, with the transport
outcomes in force at that time. -/
inductive JMOp where
  | submit (send : SendEnv) (ctx : JobContext)
  | submitMeta (send : SendEnv) (plan : PhysicalPlan)

/-- Run one submission call. -/
def applyOp (j : JobManager) : JMOp → SubmitOutcome
  | JMOp.submit send ctx => SubmitJob j send ctx
  | JMOp.submitMeta send plan => SubmitMetadataJob j send plan

/-- The job IDs allocated by a sequence of submission calls, in call order. -/
def allocatedIDs (j : JobManager) : List JMOp → List Int
  | [] => []
  | op :: rest =>
    let o := applyOp j op
    o.jobID :: allocatedIDs o.jm rest

/-! ### Job-manager lemmas -/

theorem applyOp_jobID (j : JobManager) (op : JMOp) : (applyOp j op).jobID = j.seq + 1 := by
  cases op <;> rfl

theorem applyOp_seq (j : JobManager) (op : JMOp) : (applyOp j op).jm.seq = j.seq + 1 := by
  cases op <;> simp [applyOp, SubmitJob, SubmitMetadataJob]

theorem allocatedIDs_gt (j : JobManager) (ops : List JMOp) :
    ∀ i ∈ allocatedIDs j ops, j.seq < i := by
  induction ops generalizing j with
  | nil => intro i hi; simp [allocatedIDs] at hi
  | cons op rest ih =>
    intro i hi
    simp only [allocatedIDs, List.mem_cons] at hi
    rcases hi with h | h
    · rw [h, applyOp_jobID]; omega
    · have := ih (applyOp j op).jm i h
      rw [applyOp_seq] at this
      omega

theorem sendAll_ok (send : SendEnv) (l : List Indicator)
    (hok : ∀ t ∈ l, send t = Except.ok ()) : sendAll send l = (l, none) := by
  induction l with
  | nil => rfl
  | cons t rest ih =>
    have ht : send t = Except.ok () := hok t (List.mem_cons_self t rest)
    simp only [sendAll, ht, ih fun x hx => hok x (List.mem_cons_of_mem t hx)]

theorem sendAll_fail (send : SendEnv) (e : String) (l : List Indicator) (k : Nat)
    (hk : k < l.length) (hfail : send (l.get ⟨k, hk⟩) = Except.error e)
    (hbefore : ∀ i (hi : i < k), send (l.get ⟨i, hi.trans hk⟩) = Except.ok ()) :
    sendAll send l = (l.take (k + 1), some e) := by
  induction l generalizing k with
  | nil => simp at hk
  | cons t rest ih =>
    cases k with
    | zero =>
      simp only [List.get] at hfail
      simp [sendAll, hfail]
    | succ k =>
      have ht : send t = Except.ok () := hbefore 0 (Nat.succ_pos k)
      have hk' : k < rest.length := Nat.lt_of_succ_lt_succ hk
      have := ih k hk' hfail fun i hi => hbefore (i + 1) (Nat.succ_lt_succ hi)
      simp [sendAll, ht, this]

theorem jobsLoad_none (jobs : List (Int × StoredValue)) (n : Int)
    (h : ∀ p ∈ jobs, p.1 ≤ n) : jobsLoad jobs (n + 1) = none := by
  induction jobs with
  | nil => rfl
  | cons p rest ih =>
    have hp : p.1 ≤ n := h p (List.mem_cons_self p rest)
    have hne : ¬(p.1 = n + 1) := by omega
    cases p with
    | mk k v =>
      simp only [jobsLoad, if_neg hne]
      exact ih fun q hq => h q (List.mem_cons_of_mem _ hq)

/-! ### Claims C1, C2, C3, C8 -/

/-- Concrete metadata plan used to exhibit the registration bug: one leaf,
no intermediates. -/
def mdPlan : PhysicalPlan :=
  { root := { indicator := "root", numOfTask := 1 },
    intermediates := [],
    leafs := [{ indicator := "leaf-1", numOfTask := 1 }] }

/-- Transport that accepts every request. -/
def okSend : SendEnv := fun _ => Except.ok ()

/-- C1: against the claim, `SubmitMetadataJob` on a fresh manager with one
leaf whose dispatch succeeds returns no error and allocates job ID 1, yet
`GetJob 1` returns the not-found sentinel: the registry holds the
`context.Context` argument, on which the `JobContext` type assertion fails. -/
theorem submitMetadataJob_registered_job_not_lookupable :
    (SubmitMetadataJob NewJobManager okSend mdPlan).err = none ∧
    (SubmitMetadataJob NewJobManager okSend mdPlan).jobID = 1 ∧
    jobsLoad (SubmitMetadataJob NewJobManager okSend mdPlan).jm.jobs 1 =
      some StoredValue.goContext ∧
    GetJob (SubmitMetadataJob NewJobManager okSend mdPlan).jm 1 = none := by
  refine ⟨rfl, rfl, rfl, rfl⟩

/-- C2: if dispatch to the k-th target of the selected tier fails and all
earlier ones succeed, `SubmitJob` contacts exactly targets 0..k (so never
k+1..n), returns that error, and the job is not resolvable via `GetJob`. -/
theorem submitJob_aborts_on_first_dispatch_failure
    (j : JobManager) (send : SendEnv) (ctx : JobContext) (e : String) (k : Nat)
    (hkeys : ∀ p ∈ j.jobs, p.1 ≤ j.seq)
    (hk : k < (dispatchTargets ctx.plan).length)
    (hfail : send ((dispatchTargets ctx.plan).get ⟨k, hk⟩) = Except.error e)
    (hbefore : ∀ i (hi : i < k),
      send ((dispatchTargets ctx.plan).get ⟨i, hi.trans hk⟩) = Except.ok ()) :
    (SubmitJob j send ctx).sent = (dispatchTargets ctx.plan).take (k + 1) ∧
    (SubmitJob j send ctx).err = some e ∧
    GetJob (SubmitJob j send ctx).jm (SubmitJob j send ctx).jobID = none := by
  have hs := sendAll_fail send e (dispatchTargets ctx.plan) k hk hfail hbefore
  refine ⟨?_, ?_, ?_⟩
  · simp [SubmitJob, hs]
  · simp [SubmitJob, hs]
  · simp only [SubmitJob, GetJob, hs]
    rw [if_neg (by simp)]
    rw [jobsLoad_none j.jobs j.seq hkeys]

/-- Witness for C2 at a concrete input: a plan with two intermediates where
the first dispatch succeeds and the second fails. -/
theorem submitJob_aborts_on_first_dispatch_failure_witness :
    (SubmitJob NewJobManager
        (fun t => if t = "i2" then Except.error "down" else Except.ok ())
        { plan := { root := { indicator := "root", numOfTask := 1 },
                    intermediates := [{ indicator := "i1", numOfTask := 1 },
                                      { indicator := "i2", numOfTask := 1 },
                                      { indicator := "i3", numOfTask := 1 }],
                    leafs := [] },
          payload := 0 }).sent = ["i1", "i2"] ∧
    (SubmitJob NewJobManager
        (fun t => if t = "i2" then Except.error "down" else Except.ok ())
        { plan := { root := { indicator := "root", numOfTask := 1 },
                    intermediates := [{ indicator := "i1", numOfTask := 1 },
                                      { indicator := "i2", numOfTask := 1 },
                                      { indicator := "i3", numOfTask := 1 }],
                    leafs := [] },
          payload := 0 }).err = some "down" ∧
    GetJob (SubmitJob NewJobManager
        (fun t => if t = "i2" then Except.error "down" else Except.ok ())
        { plan := { root := { indicator := "root", numOfTask := 1 },
                    intermediates := [{ indicator := "i1", numOfTask := 1 },
                                      { indicator := "i2", numOfTask := 1 },
                                      { indicator := "i3", numOfTask := 1 }],
                    leafs := [] },
          payload := 0 }).jm
      (SubmitJob NewJobManager
        (fun t => if t = "i2" then Except.error "down" else Except.ok ())
        { plan := { root := { indicator := "root", numOfTask := 1 },
                    intermediates := [{ indicator := "i1", numOfTask := 1 },
                                      { indicator := "i2", numOfTask := 1 },
                                      { indicator := "i3", numOfTask := 1 }],
                    leafs := [] },
          payload := 0 }).jobID = none := by
  have h := submitJob_aborts_on_first_dispatch_failure NewJobManager
    (fun t => if t = "i2" then Except.error "down" else Except.ok ())
    { plan := { root := { indicator := "root", numOfTask := 1 },
                intermediates := [{ indicator := "i1", numOfTask := 1 },
                                  { indicator := "i2", numOfTask := 1 },
                                  { indicator := "i3", numOfTask := 1 }],
                leafs := [] },
      payload := 0 } "down" 1
    (by intro p hp; simp [NewJobManager] at hp)
    (by decide)
    rfl
    (by intro i hi
        interval_cases i
        rfl)
  exact ⟨h.1.trans rfl, h.2.1, h.2.2⟩

/-- C3: when every dispatch succeeds, `SubmitJob` contacts exactly the
intermediate tier's indicators in plan order when intermediates exist, else
exactly the leaf tier's indicators in plan order, else nothing — and returns
no error in all three cases. -/
theorem submitJob_dispatch_target_selection
    (j : JobManager) (send : SendEnv) (ctx : JobContext)
    (hok : ∀ t ∈ dispatchTargets ctx.plan, send t = Except.ok ()) :
    (SubmitJob j send ctx).err = none ∧
    (ctx.plan.intermediates ≠ [] →
      (SubmitJob j send ctx).sent = ctx.plan.intermediates.map PlanNode.indicator) ∧
    (ctx.plan.intermediates = [] → ctx.plan.leafs ≠ [] →
      (SubmitJob j send ctx).sent = ctx.plan.leafs.map PlanNode.indicator) ∧
    (ctx.plan.intermediates = [] → ctx.plan.leafs = [] →
      (SubmitJob j send ctx).sent = []) := by
  have hs := sendAll_ok send (dispatchTargets ctx.plan) hok
  have hsent : (SubmitJob j send ctx).sent = dispatchTargets ctx.plan := by
    simp [SubmitJob, hs]
  refine ⟨by simp [SubmitJob, hs], ?_, ?_, ?_⟩
  · intro hi
    rw [hsent]; simp [dispatchTargets, hi]
  · intro hi hl
    rw [hsent]; simp [dispatchTargets, hi, hl]
  · intro hi hl
    rw [hsent]; simp [dispatchTargets, hi, hl]

/-- Witness for C3 at concrete inputs covering the three plan shapes. -/
theorem submitJob_dispatch_target_selection_witness :
    (SubmitJob NewJobManager okSend
      { plan := { root := { indicator := "root", numOfTask := 1 },
                  intermediates := [{ indicator := "i1", numOfTask := 1 }],
                  leafs := [{ indicator := "l1", numOfTask := 1 }] },
        payload := 0 }).sent = ["i1"] ∧
    (SubmitJob NewJobManager okSend
      { plan := { root := { indicator := "root", numOfTask := 1 },
                  intermediates := [],
                  leafs := [{ indicator := "l1", numOfTask := 1 },
                            { indicator := "l2", numOfTask := 1 }] },
        payload := 0 }).sent = ["l1", "l2"] ∧
    (SubmitJob NewJobManager okSend
      { plan := { root := { indicator := "root", numOfTask := 1 },
                  intermediates := [], leafs := [] },
        payload := 0 }).sent = [] ∧
    (SubmitJob NewJobManager okSend
      { plan := { root := { indicator := "root", numOfTask := 1 },
                  intermediates := [], leafs := [] },
        payload := 0 }).err = none := by
  have h1 := submitJob_dispatch_target_selection NewJobManager okSend
    { plan := { root := { indicator := "root", numOfTask := 1 },
                intermediates := [{ indicator := "i1", numOfTask := 1 }],
                leafs := [{ indicator := "l1", numOfTask := 1 }] },
      payload := 0 } (fun t _ => rfl)
  have h2 := submitJob_dispatch_target_selection NewJobManager okSend
    { plan := { root := { indicator := "root", numOfTask := 1 },
                intermediates := [],
                leafs := [{ indicator := "l1", numOfTask := 1 },
                          { indicator := "l2", numOfTask := 1 }] },
      payload := 0 } (fun t _ => rfl)
  have h3 := submitJob_dispatch_target_selection NewJobManager okSend
    { plan := { root := { indicator := "root", numOfTask := 1 },
                intermediates := [], leafs := [] },
      payload := 0 } (fun t _ => rfl)
  exact ⟨(h1.2.1 (by decide)).trans (by decide),
         (h2.2.2.1 rfl (by decide)).trans (by decide),
         h3.2.2.2 rfl rfl, h3.1⟩

/-- C8: over any sequence of `SubmitJob`/`SubmitMetadataJob` calls on one
manager, the allocated job IDs are pairwise strictly increasing — each call
observes an ID strictly greater than every previously allocated one, so IDs
are never reused. -/
theorem allocatedIDs_strictly_increasing (j : JobManager) (ops : List JMOp) :
    List.Pairwise (· < ·) (allocatedIDs j ops) := by
  induction ops generalizing j with
  | nil => exact List.Pairwise.nil
  | cons op rest ih =>
    refine List.Pairwise.cons ?_ (ih (applyOp j op).jm)
    intro i hi
    have := allocatedIDs_gt (applyOp j op).jm rest i hi
    rw [applyOp_seq] at this
    rw [applyOp_jobID]
    omega

/-! ## Tag search (query/tag_search.go) -/

/-- A leaf tag-filter expression (`stmt.TagFilter`): exposes its tag key and
its canonical rewritten string form. -/
structure TagFilterLeaf where
  tagKey : String
  rewrite : String
deriving DecidableEq

/-- A binary operator of the statement language: `AND`, `OR`, or any other
operator (represented by its print name). -/
inductive BinaryOp where
  | and
  | or
  | other (name : String)
deriving DecidableEq

/-- `stmt.BinaryOPString`: print name of a binary operator. -/
def BinaryOPString : BinaryOp → String
  | BinaryOp.and => "and"
  | BinaryOp.or => "or"
  | BinaryOp.other s => s

/-- The tag-filter expression tree (`stmt.Expr` shapes handled by the
search): leaf filter, parenthesized expression, negation, binary
expression. -/
inductive Expr where
  | tagFilter (lf : TagFilterLeaf)
  | paren (e : Expr)
  | notExpr (e : Expr)
  | binary (op : BinaryOp) (l r : Expr)
deriving DecidableEq

/-- `tagFilterResult`: a tag key ID and the matching tag value IDs.  The
roaring bitmap is modelled as the list of its members. -/
structure TagFilterResult where
  tagKey : Nat
  tagValueIDs : List Nat
deriving DecidableEq

/-- The external metadata collaborators: `MetadataDatabase.GetTagKeyID` and
`TagMetadata.FindTagValueDsByExpr`.  The index result is `none` for a nil
bitmap and `some l` for a bitmap with members `l`. -/
structure TagMetaEnv where
  getTagKeyID : String → Except String Nat
  findTagValueDsByExpr : Nat → TagFilterLeaf → Except String (Option (List Nat))

/-- The mutable state of a `tagSearch`: the result map, the tag-key cache
and the latched error.  Both maps are association lists; a Go map store
replaces the old binding of the key. -/
structure TagSearchSt where
  result : List (String × TagFilterResult)
  tags : List (String × Nat)
  err : Option String
deriving DecidableEq

/-- Go map assignment on the result map: drop any old binding of the key and
append the new one. -/
def mapStore (m : List (String × TagFilterResult)) (k : String) (v : TagFilterResult) :
    List (String × TagFilterResult) :=
  (m.filter fun p => p.1 ≠ k) ++ [(k, v)]

/-- Go map lookup on the tag-key cache. -/
def tagsLookup : List (String × Nat) → String → Option Nat
  | [], _ => none
  | (k, v) :: rest, key => if k = key then some v else tagsLookup rest key

/-- `tagSearch.getTagKeyID`: serve the key from the per-search cache, else
ask the metadata store and cache a successful answer. -/
def getTagKeyIDCached (env : TagMetaEnv) (s : TagSearchSt) (tagKey : String) :
    TagSearchSt × Except String Nat :=
  match tagsLookup s.tags tagKey with
  | some id => (s, Except.ok id)
  | none =>
    match env.getTagKeyID tagKey with
    | Except.error e => (s, Except.error e)
    | Except.ok id => ({ s with tags := (tagKey, id) :: s.tags }, Except.ok id)

/-- `tagSearch.findTagValueIDsByExpr`: depth-first evaluation of the filter
expression.  A latched error makes every call a no-op; a leaf resolves its
tag key and queries the index, recording a non-nil non-empty result under the
leaf's rewritten form; parentheses and negation recurse; a binary expression
recurses into both sides after rejecting any operator other than AND/OR.
(The Go nil-expression guard has no counterpart: expressions are total
values here.) -/
def findTagValueIDsByExpr (env : TagMetaEnv) : Expr → TagSearchSt → TagSearchSt
  | expr, s =>
    if s.err.isSome then s
    else
      match expr with
      | Expr.tagFilter lf =>
        match getTagKeyIDCached env s lf.tagKey with
        | (s1, Except.error e) => { s1 with err := some e }
        | (s1, Except.ok tagKeyID) =>
          match env.findTagValueDsByExpr tagKeyID lf with
          | Except.error e => { s1 with err := some e }
          | Except.ok tagValueIDs =>
            match tagValueIDs with
            | none => s1
            | some ids =>
              if ids.isEmpty then s1
              else { s1 with
                     result := mapStore s1.result lf.rewrite
                       { tagKey := tagKeyID, tagValueIDs := ids } }
      | Expr.paren e => findTagValueIDsByExpr env e s
      | Expr.notExpr e => findTagValueIDsByExpr env e s
      | Expr.binary op l r =>
        if ¬op = BinaryOp.and ∧ ¬op = BinaryOp.or then
          { s with err := some ("wrong binary operator in tag filter: " ++ BinaryOPString op) }
        else
          findTagValueIDsByExpr env r (findTagValueIDsByExpr env l s)

/-- The state a fresh `tagSearch` starts from (`newTagSearch`). -/
def newTagSearchSt : TagSearchSt := { result := [], tags := [], err := none }

/-- `tagSearch.Filter`: evaluate the condition once; on a latched error
return it (with a nil result), else return the result map. -/
def Filter (env : TagMetaEnv) (condition : Expr) :
    Except String (List (String × TagFilterResult)) :=
  match (findTagValueIDsByExpr env condition newTagSearchSt).err with
  | some e => Except.error e
  | none => Except.ok (findTagValueIDsByExpr env condition newTagSearchSt).result

/-- The leaf filters of an expression, in depth-first order. -/
def leavesOf : Expr → List TagFilterLeaf
  | Expr.tagFilter lf => [lf]
  | Expr.paren e => leavesOf e
  | Expr.notExpr e => leavesOf e
  | Expr.binary _ l r => leavesOf l ++ leavesOf r

/-- Every binary operator in the expression is AND or OR. -/
def validOps : Expr → Bool
  | Expr.tagFilter _ => true
  | Expr.paren e => validOps e
  | Expr.notExpr e => validOps e
  | Expr.binary op l r =>
    (decide (op = BinaryOp.and) || decide (op = BinaryOp.or)) && validOps l && validOps r

/-- Both metadata lookups succeed for this leaf. -/
def leafOk (env : TagMetaEnv) (lf : TagFilterLeaf) : Bool :=
  match env.getTagKeyID lf.tagKey with
  | Except.error _ => false
  | Except.ok id =>
    match env.findTagValueDsByExpr id lf with
    | Except.error _ => false
    | Except.ok _ => true

/-- What one leaf contributes to the result map: nothing on a nil or empty
index answer, else its entry under its rewritten form. -/
def harvestLeaf (env : TagMetaEnv) (m : List (String × TagFilterResult))
    (lf : TagFilterLeaf) : List (String × TagFilterResult) :=
  match env.getTagKeyID lf.tagKey with
  | Except.error _ => m
  | Except.ok id =>
    match env.findTagValueDsByExpr id lf with
    | Except.error _ => m
    | Except.ok none => m
    | Except.ok (some ids) =>
      if ids.isEmpty then m
      else mapStore m lf.rewrite { tagKey := id, tagValueIDs := ids }

/-- Fold `harvestLeaf` over a list of leaves. -/
def harvestLeaves (env : TagMetaEnv) (lfs : List TagFilterLeaf)
    (m : List (String × TagFilterResult)) : List (String × TagFilterResult) :=
  lfs.foldl (harvestLeaf env) m

/-- Every cached binding agrees with the metadata store. -/
def tagsConsistent (env : TagMetaEnv) (tags : List (String × Nat)) : Prop :=
  ∀ p ∈ tags, env.getTagKeyID p.1 = Except.ok p.2

/-! ### Tag-search lemmas -/

theorem findTagValueIDsByExpr_latched (env : TagMetaEnv) (expr : Expr)
    (s : TagSearchSt) (h : s.err.isSome) : findTagValueIDsByExpr env expr s = s := by
  cases expr <;> simp [findTagValueIDsByExpr, h]

theorem tagsLookup_consistent (env : TagMetaEnv) (tags : List (String × Nat))
    (hcons : tagsConsistent env tags) (key : String) (id : Nat)
    (h : tagsLookup tags key = some id) : env.getTagKeyID key = Except.ok id := by
  induction tags with
  | nil => simp [tagsLookup] at h
  | cons p rest ih =>
    cases p with
    | mk k w =>
      by_cases hp : k = key
      · subst hp
        simp only [tagsLookup, eq_self_iff_true, if_true, Option.some.injEq] at h
        subst h
        exact hcons _ (List.mem_cons_self _ _)
      · simp only [tagsLookup, if_neg hp] at h
        exact ih (fun q hq => hcons q (List.mem_cons_of_mem _ hq)) h

theorem getTagKeyIDCached_ok (env : TagMetaEnv) (s : TagSearchSt) (key : String)
    (id : Nat) (hcons : tagsConsistent env s.tags)
    (hid : env.getTagKeyID key = Except.ok id) :
    ∃ s1, getTagKeyIDCached env s key = (s1, Except.ok id) ∧
      s1.err = s.err ∧ s1.result = s.result ∧ tagsConsistent env s1.tags := by
  unfold getTagKeyIDCached
  cases hc : tagsLookup s.tags key with
  | some cid =>
    have hcid := tagsLookup_consistent env s.tags hcons key cid hc
    rw [hcid] at hid
    injection hid with hnat
    subst hnat
    exact ⟨s, rfl, rfl, rfl, hcons⟩
  | none =>
    rw [hid]
    refine ⟨{ s with tags := (key, id) :: s.tags }, rfl, rfl, rfl, ?_⟩
    intro p hp
    rcases List.mem_cons.mp hp with h | h
    · rw [h]; exact hid
    · exact hcons p h

theorem findTagValueIDsByExpr_no_error (env : TagMetaEnv) (expr : Expr) :
    ∀ s : TagSearchSt, s.err = none → tagsConsistent env s.tags →
      validOps expr = true → (∀ lf ∈ leavesOf expr, leafOk env lf = true) →
      (findTagValueIDsByExpr env expr s).err = none ∧
      tagsConsistent env (findTagValueIDsByExpr env expr s).tags ∧
      (findTagValueIDsByExpr env expr s).result = harvestLeaves env (leavesOf expr) s.result := by
  induction expr with
  | tagFilter lf =>
    intro s herr hcons _ hleaf
    have hlf : leafOk env lf = true := hleaf lf (by simp [leavesOf])
    obtain ⟨id, hid, v, hv⟩ : ∃ id, env.getTagKeyID lf.tagKey = Except.ok id ∧
        ∃ v, env.findTagValueDsByExpr id lf = Except.ok v := by
      cases hg : env.getTagKeyID lf.tagKey with
      | error e => simp [leafOk, hg] at hlf
      | ok id =>
        cases hf : env.findTagValueDsByExpr id lf with
        | error e => simp [leafOk, hg, hf] at hlf
        | ok v => exact ⟨id, rfl, v, hf⟩
    obtain ⟨s1, hpair, hs1err, hs1res, hs1cons⟩ :=
      getTagKeyIDCached_ok env s lf.tagKey id hcons hid
    have hharv : harvestLeaves env (leavesOf (Expr.tagFilter lf)) s.result =
        harvestLeaf env s.result lf := rfl
    cases v with
    | none =>
      have heval : findTagValueIDsByExpr env (Expr.tagFilter lf) s = s1 := by
        simp only [findTagValueIDsByExpr, herr, Option.isSome_none, Bool.false_eq_true,
          if_false, hpair, hv]
      refine ⟨by rw [heval, hs1err, herr], by rw [heval]; exact hs1cons, ?_⟩
      rw [heval, hs1res, hharv]
      simp only [harvestLeaf, hid, hv]
    | some ids =>
      by_cases hemp : ids.isEmpty
      · have heval : findTagValueIDsByExpr env (Expr.tagFilter lf) s = s1 := by
          simp only [findTagValueIDsByExpr, herr, Option.isSome_none, Bool.false_eq_true,
            if_false, hpair, hv, if_pos hemp]
        refine ⟨by rw [heval, hs1err, herr], by rw [heval]; exact hs1cons, ?_⟩
        rw [heval, hs1res, hharv]
        simp only [harvestLeaf, hid, hv, if_pos hemp]
      · have heval : findTagValueIDsByExpr env (Expr.tagFilter lf) s =
            { s1 with result := mapStore s1.result lf.rewrite ⟨id, ids⟩ } := by
          simp only [findTagValueIDsByExpr, herr, Option.isSome_none, Bool.false_eq_true,
            if_false, hpair, hv, if_neg hemp]
        refine ⟨by rw [heval]; exact hs1err.trans herr,
                by rw [heval]; exact hs1cons, ?_⟩
        rw [heval, hharv]
        simp only [harvestLeaf, hid, hv, if_neg hemp, hs1res]
  | paren e ih =>
    intro s herr hcons hops hleaf
    have := ih s herr hcons hops hleaf
    simpa [findTagValueIDsByExpr, herr, leavesOf, harvestLeaves] using this
  | notExpr e ih =>
    intro s herr hcons hops hleaf
    have := ih s herr hcons hops hleaf
    simpa [findTagValueIDsByExpr, herr, leavesOf, harvestLeaves] using this
  | binary op l r ihl ihr =>
    intro s herr hcons hops hleaf
    have hop : op = BinaryOp.and ∨ op = BinaryOp.or := by
      unfold validOps at hops
      rcases op with _ | _ | name
      · exact Or.inl rfl
      · exact Or.inr rfl
      · simp at hops
    have hopsl : validOps l = true := by
      unfold validOps at hops
      exact Bool.and_elim_left hops |> Bool.and_elim_right
    have hopsr : validOps r = true := Bool.and_elim_right hops
    have hll : ∀ lf ∈ leavesOf l, leafOk env lf = true := fun lf hlf =>
      hleaf lf (by simp [leavesOf, hlf])
    have hlr : ∀ lf ∈ leavesOf r, leafOk env lf = true := fun lf hlf =>
      hleaf lf (by simp [leavesOf, hlf])
    have hL := ihl s herr hcons hopsl hll
    have hR := ihr (findTagValueIDsByExpr env l s) hL.1 hL.2.1 hopsr hlr
    have hcond : ¬(¬op = BinaryOp.and ∧ ¬op = BinaryOp.or) := by
      rcases hop with h | h <;> simp [h]
    refine ⟨?_, ?_, ?_⟩ <;>
      simp only [findTagValueIDsByExpr, herr, Option.isSome_none, Bool.false_eq_true,
        if_false, if_neg hcond, leavesOf, harvestLeaves, List.foldl_append]
    · exact hR.1
    · exact hR.2.1
    · rw [hR.2.2, hL.2.2]
      rfl

/-! ### Claims C5, C6 -/

/-- C5: the first traversal error is latched and all further evaluation is a
no-op; a binary operator other than AND/OR latches an error whose message
begins with "wrong binary operator in tag filter" without touching either
branch or the result; and `Filter` returns exactly the latched error with a
nil (absent) result map. -/
theorem tagSearch_first_error_latched (env : TagMetaEnv) :
    (∀ (expr : Expr) (s : TagSearchSt) (e : String), s.err = some e →
      findTagValueIDsByExpr env expr s = s) ∧
    (∀ (op : BinaryOp) (l r : Expr) (s : TagSearchSt),
      s.err = none → ¬op = BinaryOp.and → ¬op = BinaryOp.or →
      findTagValueIDsByExpr env (Expr.binary op l r) s =
        { s with err := some ("wrong binary operator in tag filter: " ++ BinaryOPString op) } ∧
      ∃ rest, "wrong binary operator in tag filter: " ++ BinaryOPString op =
        "wrong binary operator in tag filter" ++ rest) ∧
    (∀ (cond : Expr) (e : String),
      (findTagValueIDsByExpr env cond newTagSearchSt).err = some e →
      Filter env cond = Except.error e) := by
  refine ⟨?_, ?_, ?_⟩
  · intro expr s e h
    exact findTagValueIDsByExpr_latched env expr s (by simp [h])
  · intro op l r s herr hand hor
    constructor
    · simp [findTagValueIDsByExpr, herr, hand, hor]
    · refine ⟨": " ++ BinaryOPString op, ?_⟩
      rw [show ("wrong binary operator in tag filter: " : String) =
        "wrong binary operator in tag filter" ++ ": " from rfl, String.append_assoc]
  · intro cond e h
    simp [Filter, h]

/-- Witness for C5: a concrete environment and expression with a `xor`
operator; the sibling leaf is valid, yet evaluation latches the operator
error, leaves the state untouched otherwise, and `Filter` returns it. -/
theorem tagSearch_first_error_latched_witness :
    findTagValueIDsByExpr
        { getTagKeyID := fun _ => Except.ok 7,
          findTagValueDsByExpr := fun _ _ => Except.ok (some [1]) }
        (Expr.tagFilter { tagKey := "a", rewrite := "a=1" })
        { result := [], tags := [], err := some "boom" } =
      { result := [], tags := [], err := some "boom" } ∧
    findTagValueIDsByExpr
        { getTagKeyID := fun _ => Except.ok 7,
          findTagValueDsByExpr := fun _ _ => Except.ok (some [1]) }
        (Expr.binary (BinaryOp.other "xor")
          (Expr.tagFilter { tagKey := "a", rewrite := "a=1" })
          (Expr.tagFilter { tagKey := "b", rewrite := "b=2" }))
        newTagSearchSt =
      { result := [], tags := [],
        err := some "wrong binary operator in tag filter: xor" } ∧
    Filter
        { getTagKeyID := fun _ => Except.ok 7,
          findTagValueDsByExpr := fun _ _ => Except.ok (some [1]) }
        (Expr.binary (BinaryOp.other "xor")
          (Expr.tagFilter { tagKey := "a", rewrite := "a=1" })
          (Expr.tagFilter { tagKey := "b", rewrite := "b=2" })) =
      Except.error "wrong binary operator in tag filter: xor" := by
  have h := tagSearch_first_error_latched
    { getTagKeyID := fun _ => Except.ok 7,
      findTagValueDsByExpr := fun _ _ => Except.ok (some [1]) }
  refine ⟨?_, ?_, ?_⟩
  · exact h.1 (Expr.tagFilter { tagKey := "a", rewrite := "a=1" })
      { result := [], tags := [], err := some "boom" } "boom" rfl
  · exact ((h.2.1 (BinaryOp.other "xor")
      (Expr.tagFilter { tagKey := "a", rewrite := "a=1" })
      (Expr.tagFilter { tagKey := "b", rewrite := "b=2" })
      newTagSearchSt rfl (by decide) (by decide)).1).trans rfl
  · exact h.2.2 (Expr.binary (BinaryOp.other "xor")
      (Expr.tagFilter { tagKey := "a", rewrite := "a=1" })
      (Expr.tagFilter { tagKey := "b", rewrite := "b=2" })) _ rfl

/-- C6: over any nesting of parentheses, NOT, AND and OR whose metadata
lookups all succeed, `Filter` returns exactly the per-leaf harvest of the
depth-first leaf list — one entry per leaf with a non-nil, non-empty match
keyed by its rewritten form, empty matches omitted, with no AND/OR set
combination and no bitmap inversion for NOT. -/
theorem tagSearch_filter_harvests_leaves (env : TagMetaEnv) (cond : Expr)
    (hops : validOps cond = true)
    (hleaves : ∀ lf ∈ leavesOf cond, leafOk env lf = true) :
    Filter env cond = Except.ok (harvestLeaves env (leavesOf cond) []) := by
  have h := findTagValueIDsByExpr_no_error env cond newTagSearchSt rfl
    (by intro p hp; simp [newTagSearchSt] at hp) hops hleaves
  simp only [Filter, h.1, h.2.2]
  rfl

/-- Witness for C6 at the spec's example `A AND (B OR NOT C)` with three
non-empty leaves: the result has exactly one entry per leaf, in depth-first
order, keyed by the rewritten forms. -/
theorem tagSearch_filter_harvests_leaves_witness :
    Filter
        { getTagKeyID := fun k => if k = "a" then Except.ok 1
            else if k = "b" then Except.ok 2 else Except.ok 3,
          findTagValueDsByExpr := fun id _ => Except.ok (some [10 * id]) }
        (Expr.binary BinaryOp.and
          (Expr.tagFilter { tagKey := "a", rewrite := "a=1" })
          (Expr.paren (Expr.binary BinaryOp.or
            (Expr.tagFilter { tagKey := "b", rewrite := "b=2" })
            (Expr.notExpr (Expr.tagFilter { tagKey := "c", rewrite := "c=3" }))))) =
      Except.ok [("a=1", { tagKey := 1, tagValueIDs := [10] }),
                 ("b=2", { tagKey := 2, tagValueIDs := [20] }),
                 ("c=3", { tagKey := 3, tagValueIDs := [30] })] := by
  have h := tagSearch_filter_harvests_leaves
    { getTagKeyID := fun k => if k = "a" then Except.ok 1
        else if k = "b" then Except.ok 2 else Except.ok 3,
      findTagValueDsByExpr := fun id _ => Except.ok (some [10 * id]) }
    (Expr.binary BinaryOp.and
      (Expr.tagFilter { tagKey := "a", rewrite := "a=1" })
      (Expr.paren (Expr.binary BinaryOp.or
        (Expr.tagFilter { tagKey := "b", rewrite := "b=2" })
        (Expr.notExpr (Expr.tagFilter { tagKey := "c", rewrite := "c=3" })))))
    (by decide) (by decide)
  exact h.trans rfl

/-! ## Field store (tsdb/memdb/field_store.go) -/

/-- `field.Type`: sum, gauge, min, max. -/
inductive FieldType where
  | sum
  | gauge
  | min
  | max
deriving DecidableEq

instance {ε α : Type} [DecidableEq ε] [DecidableEq α] : DecidableEq (Except ε α) :=
  fun a b =>
  match a, b with
  | Except.error e1, Except.error e2 => decidable_of_iff (e1 = e2) (by simp)
  | Except.error _, Except.ok _ => isFalse fun hc => Except.noConfusion hc
  | Except.ok _, Except.error _ => isFalse fun hc => Except.noConfusion hc
  | Except.ok v1, Except.ok v2 => decidable_of_iff (v1 = v2) (by simp)

/-- A segment store (`sStoreINTF`), the external single-window write buffer:
its family time, the values written into it (the float payloads are abstract
to this core and carried as integers), and the externally-owned outcomes of
its `bytes()` serialization (payload bytes, start slot, end slot) and of its
`slotRange()` query. -/
structure SStore where
  familyTime : Int
  values : List Int
  bytesRes : Except String (List Nat × Int × Int)
  slotRangeRes : Except String (Int × Int)
deriving DecidableEq

/-- `sStoreINTF.writeFloat`: record one value in the buffer. -/
def SStore.writeFloat (s : SStore) (v : Int) : SStore :=
  { s with values := s.values ++ [v] }

/-- `newSimpleFieldStore`: a fresh empty segment for a family time.  Its
aggregation function and serialization behaviour are owned by the external
segment store; only the family time and the emptiness matter here. -/
def newSimpleFieldStore (familyTime : Int) : SStore :=
  { familyTime := familyTime, values := [],
    bytesRes := Except.ok ([], 0, 0), slotRangeRes := Except.ok (0, 0) }

/-- The family times of a segment list, in list order. -/
def famTimes (l : List SStore) : List Int := l.map SStore.familyTime

/-- `sort.Search` over the segment list: index of the first segment whose
family time is at least `t`, or the length when there is none.  Go's binary
search and this first-match search agree on the sorted lists the store
maintains. -/
def sSearch (l : List SStore) (t : Int) : Nat :=
  l.findIdx fun s => t ≤ s.familyTime

/-- `fieldStore.getSStore`: the segment at the search index, provided it
matches the family time exactly. -/
def getSStore (l : List SStore) (t : Int) : Option SStore :=
  match l[sSearch l t]? with
  | none => none
  | some s => if s.familyTime = t then some s else none

/-- `fieldStore.removeSStore`: shift-delete the matching segment, if any. -/
def removeSStore (l : List SStore) (t : Int) : List SStore :=
  match l[sSearch l t]? with
  | none => l
  | some s => if s.familyTime = t then l.eraseIdx (sSearch l t) else l

/-- Ordering of segments by family time (`sStoreNodes.Less`). -/
def sLE (a b : SStore) : Prop := a.familyTime ≤ b.familyTime

instance : DecidableRel sLE := fun a b => Int.decLe a.familyTime b.familyTime

instance : IsTotal SStore sLE := ⟨fun a b => Int.le_total a.familyTime b.familyTime⟩

instance : IsTrans SStore sLE := ⟨fun _ _ _ => Int.le_trans⟩

/-- `fieldStore.insertSStore`: append the segment, then `sort.Sort` by
family time.  Go's `sort.Sort` is an unspecified comparison sort; every
comparison sort produces the same list once the family times are distinct,
which `write` guarantees at each call site, so insertion sort stands in. -/
def insertSStore (l : List SStore) (s : SStore) : List SStore :=
  List.insertionSort sLE (l ++ [s])

/-- `pb.Field`: the incoming record's field kind — `Field_Sum` with its
value, or any other (unhandled) kind. -/
inductive PBField where
  | sum (v : Int)
  | other
deriving DecidableEq

/-- The write context; only the family time is consumed by the store. -/
structure WriteContext where
  familyTime : Int
deriving DecidableEq

/-- `fieldStore`: field name, type, generated ID, and the segment list kept
sorted ascending by family time. -/
structure FieldStore where
  fieldName : String
  fieldType : FieldType
  fieldID : Nat
  sStoreNodes : List SStore
deriving DecidableEq

/-- `newFieldStore`: empty segment list. -/
def newFieldStore (fieldName : String) (fieldID : Nat) (fieldType : FieldType) : FieldStore :=
  { fieldName := fieldName, fieldType := fieldType, fieldID := fieldID, sStoreNodes := [] }

/-- `fieldStore.write`: a Sum record goes to the segment of its family time
(the found segment is updated in place; a missing one is created and
sort-inserted, then written); any other field kind is logged and dropped
without touching the store. -/
def FieldStore.write (fs : FieldStore) (f : PBField) (writeCtx : WriteContext) : FieldStore :=
  match f with
  | PBField.sum v =>
    match getSStore fs.sStoreNodes writeCtx.familyTime with
    | some s =>
      { fs with sStoreNodes :=
          fs.sStoreNodes.set (sSearch fs.sStoreNodes writeCtx.familyTime) (s.writeFloat v) }
    | none =>
      { fs with sStoreNodes :=
          insertSStore fs.sStoreNodes ((newSimpleFieldStore writeCtx.familyTime).writeFloat v) }
  | PBField.other => fs

/-- One `TableFlusher.FlushField` invocation, with its arguments. -/
structure FlushCall where
  fieldID : Nat
  fieldType : FieldType
  data : List Nat
  startSlot : Int
  endSlot : Int
deriving DecidableEq

/-- `fieldStore.flushFieldTo`: look up the segment of the family time; if
missing return false.  Otherwise remove it, serialize it, and on success
hand the field ID, field type, payload and slot range to the flusher;
a serialization error yields false with the segment already removed.
Returns the new store, the `flushed` flag and the flusher invocations. -/
def FieldStore.flushFieldTo (fs : FieldStore) (familyTime : Int) :
    FieldStore × Bool × List FlushCall :=
  match getSStore fs.sStoreNodes familyTime with
  | none => (fs, false, [])
  | some s =>
    match s.bytesRes with
    | Except.error _ =>
      ({ fs with sStoreNodes := removeSStore fs.sStoreNodes familyTime }, false, [])
    | Except.ok (data, startSlot, endSlot) =>
      ({ fs with sStoreNodes := removeSStore fs.sStoreNodes familyTime }, true,
       [{ fieldID := fs.fieldID, fieldType := fs.fieldType,
          data := data, startSlot := startSlot, endSlot := endSlot }])

/-- `timeutil.TimeRange`. -/
structure TimeRange where
  Start : Int
  End : Int
deriving DecidableEq

/-- The loop of `fieldStore.timeRange`: fold the segments, skipping those
whose slot range errors; a contributing segment's start/end timestamps
update the accumulator, where 0 doubles as the unset sentinel. -/
def timeRangeLoop (interval : Int) : List SStore → TimeRange → Bool → TimeRange × Bool
  | [], tr, ok => (tr, ok)
  | s :: rest, tr, ok =>
    match s.slotRangeRes with
    | Except.error _ => timeRangeLoop interval rest tr ok
    | Except.ok (startSlot, endSlot) =>
      let startTime := s.familyTime + startSlot * interval
      let endTime := s.familyTime + endSlot * interval
      let newStart := if tr.Start = 0 ∨ startTime < tr.Start then startTime else tr.Start
      let newEnd := if tr.End = 0 ∨ tr.End < endTime then endTime else tr.End
      timeRangeLoop interval rest { Start := newStart, End := newEnd } true

/-- `fieldStore.timeRange`. -/
def FieldStore.timeRange (fs : FieldStore) (interval : Int) : TimeRange × Bool :=
  timeRangeLoop interval fs.sStoreNodes { Start := 0, End := 0 } false

/-- Start timestamps of the segments whose slot range is available, in list
order. -/
def contribStarts (interval : Int) : List SStore → List Int
  | [] => []
  | s :: rest =>
    match s.slotRangeRes with
    | Except.error _ => contribStarts interval rest
    | Except.ok (startSlot, _) =>
      (s.familyTime + startSlot * interval) :: contribStarts interval rest

/-- End timestamps of the segments whose slot range is available, in list
order. -/
def contribEnds (interval : Int) : List SStore → List Int
  | [] => []
  | s :: rest =>
    match s.slotRangeRes with
    | Except.error _ => contribEnds interval rest
    | Except.ok (_, endSlot) =>
      (s.familyTime + endSlot * interval) :: contribEnds interval rest

/-- Minimum of a list of integers, `none` when empty. -/
def listMin : List Int → Option Int
  | [] => none
  | x :: xs => some (xs.foldl min x)

/-- Maximum of a list of integers, `none` when empty. -/
def listMax : List Int → Option Int
  | [] => none
  | x :: xs => some (xs.foldl max x)

/-- The documented invariant of the segment list: strictly ascending family
times (sorted, at most one segment per family time). -/
def SortedNodes (l : List SStore) : Prop := (famTimes l).Pairwise (· < ·)

instance (l : List SStore) : Decidable (SortedNodes l) :=
  inferInstanceAs (Decidable ((famTimes l).Pairwise (· < ·)))

/-- The values buffered for a family time (empty when no segment exists). -/
def valuesAt (fs : FieldStore) (t : Int) : List Int :=
  match getSStore fs.sStoreNodes t with
  | some s => s.values
  | none => []

/-! ### Field-store lemmas -/

theorem sortedNodes_cons (s0 : SStore) (rest : List SStore) :
    SortedNodes (s0 :: rest) ↔
      (∀ x ∈ famTimes rest, s0.familyTime < x) ∧ SortedNodes rest := by
  simp [SortedNodes, famTimes, List.pairwise_cons]

theorem sSearch_cons_le (s0 : SStore) (rest : List SStore) (t : Int)
    (h : t ≤ s0.familyTime) : sSearch (s0 :: rest) t = 0 := by
  simp [sSearch, List.findIdx_cons, h]

theorem sSearch_cons_gt (s0 : SStore) (rest : List SStore) (t : Int)
    (h : ¬t ≤ s0.familyTime) : sSearch (s0 :: rest) t = sSearch rest t + 1 := by
  simp [sSearch, List.findIdx_cons, h]

theorem getSStore_cons_gt (s0 : SStore) (rest : List SStore) (t : Int)
    (h : ¬t ≤ s0.familyTime) : getSStore (s0 :: rest) t = getSStore rest t := by
  rw [getSStore, getSStore, sSearch_cons_gt s0 rest t h, List.getElem?_cons_succ]

theorem removeSStore_cons_gt (s0 : SStore) (rest : List SStore) (t : Int)
    (h : ¬t ≤ s0.familyTime) : removeSStore (s0 :: rest) t = s0 :: removeSStore rest t := by
  rw [removeSStore, removeSStore, sSearch_cons_gt s0 rest t h, List.getElem?_cons_succ]
  cases hx : rest[sSearch rest t]? with
  | none => rfl
  | some s =>
    by_cases hf : s.familyTime = t
    · simp only [if_pos hf, List.eraseIdx_cons_succ]
    · simp only [if_neg hf]

theorem getSStore_some_iff (l : List SStore) (t : Int) (s : SStore) :
    getSStore l t = some s ↔ l[sSearch l t]? = some s ∧ s.familyTime = t := by
  rw [getSStore]
  cases hx : l[sSearch l t]? with
  | none => simp
  | some s' =>
    by_cases hf : s'.familyTime = t
    · simp only [if_pos hf, Option.some.injEq]
      constructor
      · intro h; subst h; exact ⟨rfl, hf⟩
      · intro h; exact h.1
    · simp only [if_neg hf]
      constructor
      · intro h; exact absurd h (by simp)
      · intro h
        injection h.1 with h1
        subst h1
        exact absurd h.2 hf

theorem getSStore_mem (l : List SStore) (t : Int) (s : SStore)
    (h : getSStore l t = some s) : s ∈ l ∧ s.familyTime = t := by
  obtain ⟨hx, hf⟩ := (getSStore_some_iff l t s).mp h
  rw [List.getElem?_eq_some] at hx
  obtain ⟨hi, rfl⟩ := hx
  exact ⟨List.getElem_mem hi, hf⟩

theorem getSStore_none_of_not_mem (l : List SStore) (t : Int)
    (h : t ∉ famTimes l) : getSStore l t = none := by
  cases hg : getSStore l t with
  | none => rfl
  | some s =>
    obtain ⟨hm, hk⟩ := getSStore_mem l t s hg
    exact absurd (hk ▸ List.mem_map_of_mem SStore.familyTime hm) h

theorem getSStore_mem_sorted (l : List SStore) (hl : SortedNodes l) (t : Int)
    (h : t ∈ famTimes l) :
    ∃ s, getSStore l t = some s ∧ s ∈ l ∧ s.familyTime = t := by
  induction l with
  | nil => simp [famTimes] at h
  | cons s0 rest ih =>
    rw [sortedNodes_cons] at hl
    by_cases hle : t ≤ s0.familyTime
    · have ht : s0.familyTime = t := by
        rcases (by simpa [famTimes] using h : t = s0.familyTime ∨ t ∈ famTimes rest) with
          h0 | h0
        · exact h0.symm
        · exact absurd (hl.1 t h0) (by omega)
      refine ⟨s0, ?_, List.mem_cons_self s0 rest, ht⟩
      simp [getSStore, sSearch_cons_le s0 rest t hle, ht]
    · have hrest : t ∈ famTimes rest := by
        rcases (by simpa [famTimes] using h : t = s0.familyTime ∨ t ∈ famTimes rest) with
          h0 | h0
        · omega
        · exact h0
      obtain ⟨s, hs, hmem, hk⟩ := ih hl.2 hrest
      exact ⟨s, (getSStore_cons_gt s0 rest t hle).trans hs,
        List.mem_cons_of_mem s0 hmem, hk⟩

theorem not_mem_of_getSStore_none (l : List SStore) (hl : SortedNodes l) (t : Int)
    (h : getSStore l t = none) : t ∉ famTimes l := by
  intro hc
  obtain ⟨s, hs, _, _⟩ := getSStore_mem_sorted l hl t hc
  rw [hs] at h
  exact Option.noConfusion h

theorem removeSStore_sorted (l : List SStore) (hl : SortedNodes l) (t : Int) :
    SortedNodes (removeSStore l t) := by
  cases hx : l[sSearch l t]? with
  | none => simp only [removeSStore, hx]; exact hl
  | some s =>
    by_cases hf : s.familyTime = t
    · simp only [removeSStore, hx, if_pos hf]
      have hsub : (famTimes (l.eraseIdx (sSearch l t))).Sublist (famTimes l) :=
        (List.eraseIdx_sublist l (sSearch l t)).map SStore.familyTime
      exact List.Pairwise.sublist hsub hl
    · simp only [removeSStore, hx, if_neg hf]; exact hl

theorem removeSStore_not_mem (l : List SStore) (hl : SortedNodes l) (t : Int) :
    t ∉ famTimes (removeSStore l t) := by
  induction l with
  | nil => simp [removeSStore, famTimes, sSearch]
  | cons s0 rest ih =>
    rw [sortedNodes_cons] at hl
    by_cases hle : t ≤ s0.familyTime
    · by_cases heq : s0.familyTime = t
      · have hrw : removeSStore (s0 :: rest) t = rest := by
          simp [removeSStore, sSearch_cons_le s0 rest t hle, heq]
        rw [hrw]
        intro hc
        exact absurd (hl.1 t hc) (by omega)
      · have hrw : removeSStore (s0 :: rest) t = s0 :: rest := by
          simp [removeSStore, sSearch_cons_le s0 rest t hle, heq]
        rw [hrw]
        intro hc
        rcases (by simpa [famTimes] using hc : t = s0.familyTime ∨ t ∈ famTimes rest) with
          h0 | h0
        · exact heq h0.symm
        · exact absurd (hl.1 t h0) (by omega)
    · rw [removeSStore_cons_gt s0 rest t hle]
      intro hc
      rcases (by simpa [famTimes] using hc :
          t = s0.familyTime ∨ t ∈ famTimes (removeSStore rest t)) with h0 | h0
      · omega
      · exact ih hl.2 h0

theorem famTimes_insertSStore_perm (l : List SStore) (s : SStore) :
    (famTimes (insertSStore l s)).Perm (famTimes l ++ [s.familyTime]) := by
  have h := (List.perm_insertionSort sLE (l ++ [s])).map SStore.familyTime
  simpa [famTimes, insertSStore] using h

theorem nodup_famTimes (l : List SStore) (hl : SortedNodes l) : (famTimes l).Nodup :=
  hl.imp fun h => ne_of_lt h

theorem insertSStore_sorted (l : List SStore) (s : SStore) (hl : SortedNodes l)
    (hfresh : s.familyTime ∉ famTimes l) : SortedNodes (insertSStore l s) := by
  have hle : (famTimes (insertSStore l s)).Pairwise (· ≤ ·) :=
    (List.sorted_insertionSort sLE (l ++ [s])).map SStore.familyTime (fun _ _ hab => hab)
  have hnodup : (famTimes (insertSStore l s)).Nodup := by
    rw [(famTimes_insertSStore_perm l s).nodup_iff, List.nodup_append]
    refine ⟨nodup_famTimes l hl, List.nodup_singleton _, ?_⟩
    intro a ha hb
    rw [List.mem_singleton] at hb
    exact hfresh (hb ▸ ha)
  exact (hle.and hnodup).imp fun h => lt_of_le_of_ne h.1 h.2

theorem getSStore_insertSStore (l : List SStore) (s : SStore) (hl : SortedNodes l)
    (hfresh : s.familyTime ∉ famTimes l) :
    getSStore (insertSStore l s) s.familyTime = some s := by
  have hsorted' := insertSStore_sorted l s hl hfresh
  have hmem : s.familyTime ∈ famTimes (insertSStore l s) :=
    (famTimes_insertSStore_perm l s).mem_iff.mpr (by simp)
  obtain ⟨s', hget, hmem', hk⟩ := getSStore_mem_sorted _ hsorted' _ hmem
  have hm2 : s' ∈ l ++ [s] := (List.mem_insertionSort sLE).mp hmem'
  rcases List.mem_append.mp hm2 with h | h
  · exact absurd (hk ▸ List.mem_map_of_mem SStore.familyTime h) hfresh
  · rw [List.mem_singleton] at h
    exact h ▸ hget

theorem list_set_self {α : Type} (xs : List α) (i : Nat) (x : α)
    (h : xs[i]? = some x) : xs.set i x = xs := by
  induction xs generalizing i with
  | nil => simp at h
  | cons y ys ih =>
    cases i with
    | zero =>
      rw [List.getElem?_cons_zero] at h
      injection h with h
      rw [h]
      rfl
    | succ i =>
      rw [List.getElem?_cons_succ] at h
      rw [List.set_cons_succ, ih i h]

theorem famTimes_set_writeFloat (l : List SStore) (i : Nat) (s : SStore) (v : Int)
    (h : l[i]? = some s) : famTimes (l.set i (s.writeFloat v)) = famTimes l := by
  rw [famTimes, List.map_set]
  have hkey : SStore.familyTime (s.writeFloat v) = s.familyTime := rfl
  rw [hkey]
  apply list_set_self
  rw [List.getElem?_map, h]
  rfl

theorem sSearch_eq_famTimes (l : List SStore) (t : Int) :
    sSearch l t = (famTimes l).findIdx fun x => t ≤ x := by
  induction l with
  | nil => rfl
  | cons s rest ih =>
    rw [sSearch, famTimes] at ih ⊢
    rw [List.map_cons, List.findIdx_cons, List.findIdx_cons, ih]

theorem getSStore_set_writeFloat (l : List SStore) (t : Int) (s : SStore) (v : Int)
    (h : getSStore l t = some s) :
    getSStore (l.set (sSearch l t) (s.writeFloat v)) t = some (s.writeFloat v) := by
  obtain ⟨hx, hf⟩ := (getSStore_some_iff l t s).mp h
  have hft : famTimes (l.set (sSearch l t) (s.writeFloat v)) = famTimes l :=
    famTimes_set_writeFloat l (sSearch l t) s v hx
  have hsearch : sSearch (l.set (sSearch l t) (s.writeFloat v)) t = sSearch l t := by
    rw [sSearch_eq_famTimes, hft, ← sSearch_eq_famTimes]
  have hi : sSearch l t < l.length := by
    rw [List.getElem?_eq_some] at hx
    exact hx.1
  apply (getSStore_some_iff _ t (s.writeFloat v)).mpr
  refine ⟨?_, hf⟩
  rw [hsearch, List.getElem?_set, if_pos rfl, if_pos hi]

theorem timeRangeLoop_go (interval : Int) (l : List SStore) :
    ∀ tr : TimeRange, tr.Start ≠ 0 → tr.End ≠ 0 →
      (∀ t ∈ contribStarts interval l, t ≠ 0) →
      (∀ t ∈ contribEnds interval l, t ≠ 0) →
      timeRangeLoop interval l tr true =
        ({ Start := (contribStarts interval l).foldl min tr.Start,
           End := (contribEnds interval l).foldl max tr.End }, true) := by
  induction l with
  | nil => intro tr _ _ _ _; rfl
  | cons s rest ih =>
    intro tr hS hE hstarts hends
    cases hsr : s.slotRangeRes with
    | error e =>
      simp only [contribStarts, contribEnds, hsr] at hstarts hends
      simp only [timeRangeLoop, hsr, contribStarts, contribEnds]
      exact ih tr hS hE hstarts hends
    | ok p =>
      obtain ⟨ss, es⟩ := p
      simp only [contribStarts, contribEnds, hsr] at hstarts hends
      have hst : s.familyTime + ss * interval ≠ 0 :=
        hstarts _ (List.mem_cons_self _ _)
      have het : s.familyTime + es * interval ≠ 0 :=
        hends _ (List.mem_cons_self _ _)
      have hmin : (if tr.Start = 0 ∨ s.familyTime + ss * interval < tr.Start
            then s.familyTime + ss * interval else tr.Start) =
          min tr.Start (s.familyTime + ss * interval) := by
        by_cases hlt : s.familyTime + ss * interval < tr.Start
        · rw [if_pos (Or.inr hlt), min_def, if_neg (by omega)]
        · rw [if_neg (by tauto), min_def, if_pos (by omega)]
      have hmax : (if tr.End = 0 ∨ tr.End < s.familyTime + es * interval
            then s.familyTime + es * interval else tr.End) =
          max tr.End (s.familyTime + es * interval) := by
        by_cases hlt : tr.End < s.familyTime + es * interval
        · rw [if_pos (Or.inr hlt), max_def, if_pos (by omega)]
        · rw [if_neg (by tauto), max_def]
          split <;> omega
      have hS' : min tr.Start (s.familyTime + ss * interval) ≠ 0 := by
        rw [min_def]; split <;> omega
      have hE' : max tr.End (s.familyTime + es * interval) ≠ 0 := by
        rw [max_def]; split <;> omega
      simp only [timeRangeLoop, hsr, contribStarts, contribEnds, List.foldl_cons, hmin, hmax]
      exact ih _ hS' hE' (fun t ht => hstarts t (List.mem_cons_of_mem _ ht))
        (fun t ht => hends t (List.mem_cons_of_mem _ ht))

theorem timeRangeLoop_init (interval : Int) (l : List SStore)
    (hstarts : ∀ t ∈ contribStarts interval l, t ≠ 0)
    (hends : ∀ t ∈ contribEnds interval l, t ≠ 0) :
    timeRangeLoop interval l { Start := 0, End := 0 } false =
      ({ Start := (listMin (contribStarts interval l)).getD 0,
         End := (listMax (contribEnds interval l)).getD 0 },
       !(contribStarts interval l).isEmpty) := by
  induction l with
  | nil => rfl
  | cons s rest ih =>
    cases hsr : s.slotRangeRes with
    | error e =>
      simp only [contribStarts, contribEnds, hsr] at hstarts hends ⊢
      simp only [timeRangeLoop, hsr]
      exact ih hstarts hends
    | ok p =>
      obtain ⟨ss, es⟩ := p
      simp only [contribStarts, contribEnds, hsr] at hstarts hends ⊢
      simp only [timeRangeLoop, hsr, if_pos (Or.inl rfl)]
      rw [timeRangeLoop_go interval rest _
        (hstarts _ (List.mem_cons_self _ _)) (hends _ (List.mem_cons_self _ _))
        (fun t ht => hstarts t (List.mem_cons_of_mem _ ht))
        (fun t ht => hends t (List.mem_cons_of_mem _ ht))]
      rfl

/-! ### Claims C7, C4, C9, C10 -/

/-- A segment whose computed start timestamp is exactly 0: family time 0
(the epoch), start slot 0. -/
def zeroStartSeg : SStore :=
  { familyTime := 0, values := [],
    bytesRes := Except.ok ([], 0, 0), slotRangeRes := Except.ok (0, 2) }

/-- A later segment with a valid slot range. -/
def laterSeg : SStore :=
  { familyTime := 5, values := [],
    bytesRes := Except.ok ([], 0, 0), slotRangeRes := Except.ok (0, 1) }

/-- Field store holding the two segments above, sorted by family time. -/
def fsC7 : FieldStore :=
  { fieldName := "f", fieldType := FieldType.sum, fieldID := 1,
    sStoreNodes := [zeroStartSeg, laterSeg] }

/-- C7 counterexample: with contributing start timestamps 0 and 5 (family
times 0 and 5, interval 1), `timeRange` reports Start = 5, not the minimum
0 — the 0 start of the first segment is indistinguishable from the loop's
unset sentinel and is overwritten by the second segment. -/
theorem timeRange_start_not_min :
    FieldStore.timeRange fsC7 1 = ({ Start := 5, End := 6 }, true) ∧
    listMin (contribStarts 1 fsC7.sStoreNodes) = some 0 ∧
    ¬(FieldStore.timeRange fsC7 1).1.Start =
      (listMin (contribStarts 1 fsC7.sStoreNodes)).getD 0 := by
  decide

/-- C7 (amended): `timeRange` over zero contributing segments returns
ok = false; segments whose slot-range computation errors are excluded from
the contributing timestamps; ok is true iff at least one segment
contributed; and — provided every contributing start and end timestamp is
nonzero, since the loop uses 0 as its unset sentinel — Start is the minimum
contributing start timestamp and End the maximum contributing end
timestamp (both 0 when nothing contributed). -/
theorem timeRange_min_max (fs : FieldStore) (interval : Int)
    (hstarts : ∀ t ∈ contribStarts interval fs.sStoreNodes, t ≠ 0)
    (hends : ∀ t ∈ contribEnds interval fs.sStoreNodes, t ≠ 0) :
    ((fs.timeRange interval).2 = true ↔ contribStarts interval fs.sStoreNodes ≠ []) ∧
    (fs.timeRange interval).1.Start =
      (listMin (contribStarts interval fs.sStoreNodes)).getD 0 ∧
    (fs.timeRange interval).1.End =
      (listMax (contribEnds interval fs.sStoreNodes)).getD 0 := by
  have h := timeRangeLoop_init interval fs.sStoreNodes hstarts hends
  rw [FieldStore.timeRange, h]
  refine ⟨?_, rfl, rfl⟩
  simp [List.isEmpty_iff]

/-- Witness for C7 (amended) at a concrete input: an erroring segment is
skipped, and the min start / max end over the two contributing segments are
returned with ok = true. -/
theorem timeRange_min_max_witness :
    (FieldStore.timeRange
      { fieldName := "f", fieldType := FieldType.sum, fieldID := 1,
        sStoreNodes :=
          [{ familyTime := 100, values := [], bytesRes := Except.ok ([], 0, 0),
             slotRangeRes := Except.error "no data" },
           { familyTime := 10, values := [], bytesRes := Except.ok ([], 0, 0),
             slotRangeRes := Except.ok (0, 2) },
           { familyTime := 5, values := [], bytesRes := Except.ok ([], 0, 0),
             slotRangeRes := Except.ok (1, 3) }] } 1).1.Start = 6 ∧
    (FieldStore.timeRange
      { fieldName := "f", fieldType := FieldType.sum, fieldID := 1,
        sStoreNodes :=
          [{ familyTime := 100, values := [], bytesRes := Except.ok ([], 0, 0),
             slotRangeRes := Except.error "no data" },
           { familyTime := 10, values := [], bytesRes := Except.ok ([], 0, 0),
             slotRangeRes := Except.ok (0, 2) },
           { familyTime := 5, values := [], bytesRes := Except.ok ([], 0, 0),
             slotRangeRes := Except.ok (1, 3) }] } 1).1.End = 12 ∧
    (FieldStore.timeRange
      { fieldName := "f", fieldType := FieldType.sum, fieldID := 1,
        sStoreNodes :=
          [{ familyTime := 100, values := [], bytesRes := Except.ok ([], 0, 0),
             slotRangeRes := Except.error "no data" },
           { familyTime := 10, values := [], bytesRes := Except.ok ([], 0, 0),
             slotRangeRes := Except.ok (0, 2) },
           { familyTime := 5, values := [], bytesRes := Except.ok ([], 0, 0),
             slotRangeRes := Except.ok (1, 3) }] } 1).2 = true := by
  have h := timeRange_min_max
    { fieldName := "f", fieldType := FieldType.sum, fieldID := 1,
      sStoreNodes :=
        [{ familyTime := 100, values := [], bytesRes := Except.ok ([], 0, 0),
           slotRangeRes := Except.error "no data" },
         { familyTime := 10, values := [], bytesRes := Except.ok ([], 0, 0),
           slotRangeRes := Except.ok (0, 2) },
         { familyTime := 5, values := [], bytesRes := Except.ok ([], 0, 0),
           slotRangeRes := Except.ok (1, 3) }] } 1
    (by decide) (by decide)
  exact ⟨h.2.1.trans (by decide), h.2.2.trans (by decide), h.1.mpr (by decide)⟩

/-- Segment with a successfully serializing buffer, family time 1. -/
def segA : SStore :=
  { familyTime := 1, values := [],
    bytesRes := Except.ok ([7], 2, 3), slotRangeRes := Except.ok (2, 3) }

/-- Segment whose serialization fails, family time 4. -/
def segB : SStore :=
  { familyTime := 4, values := [],
    bytesRes := Except.error "ser", slotRangeRes := Except.ok (0, 0) }

/-- Field store holding the two segments above, sorted by family time. -/
def fsW4 : FieldStore :=
  { fieldName := "cpu", fieldType := FieldType.sum, fieldID := 9,
    sStoreNodes := [segA, segB] }

/-- C4: on a family time with no buffered segment, `flushFieldTo` returns
false with no flusher call and an unchanged store; on one whose segment
serializes, it returns true with exactly one flusher call carrying the
field ID, field type, payload and slot range, the segment is evicted, and
an immediately subsequent flush of the same family time returns false; on a
serialization failure it returns false with no flusher call, yet the
segment has already been removed. -/
theorem flushFieldTo_behavior (fs : FieldStore) (t : Int)
    (hInv : SortedNodes fs.sStoreNodes) :
    (getSStore fs.sStoreNodes t = none → fs.flushFieldTo t = (fs, false, [])) ∧
    (∀ s data ss es, getSStore fs.sStoreNodes t = some s →
      s.bytesRes = Except.ok (data, ss, es) →
      fs.flushFieldTo t =
        ({ fs with sStoreNodes := removeSStore fs.sStoreNodes t }, true,
         [{ fieldID := fs.fieldID, fieldType := fs.fieldType, data := data,
            startSlot := ss, endSlot := es }]) ∧
      (fs.flushFieldTo t).1.flushFieldTo t = ((fs.flushFieldTo t).1, false, [])) ∧
    (∀ s e, getSStore fs.sStoreNodes t = some s → s.bytesRes = Except.error e →
      fs.flushFieldTo t =
        ({ fs with sStoreNodes := removeSStore fs.sStoreNodes t }, false, []) ∧
      getSStore (fs.flushFieldTo t).1.sStoreNodes t = none) := by
  have hafter : getSStore (removeSStore fs.sStoreNodes t) t = none :=
    getSStore_none_of_not_mem _ t (removeSStore_not_mem fs.sStoreNodes hInv t)
  refine ⟨?_, ?_, ?_⟩
  · intro h
    simp [FieldStore.flushFieldTo, h]
  · intro s data ss es h hb
    have h1 : fs.flushFieldTo t =
        ({ fs with sStoreNodes := removeSStore fs.sStoreNodes t }, true,
         [{ fieldID := fs.fieldID, fieldType := fs.fieldType, data := data,
            startSlot := ss, endSlot := es }]) := by
      simp [FieldStore.flushFieldTo, h, hb]
    refine ⟨h1, ?_⟩
    rw [h1]
    simp [FieldStore.flushFieldTo, hafter]
  · intro s e h hb
    have h1 : fs.flushFieldTo t =
        ({ fs with sStoreNodes := removeSStore fs.sStoreNodes t }, false, []) := by
      simp [FieldStore.flushFieldTo, h, hb]
    refine ⟨h1, ?_⟩
    rw [h1]
    exact hafter

/-- Witness for C4 on `fsW4`: family time 99 has no segment (no-op false);
family time 1 flushes with exactly one call and flushing it again yields
false; family time 4 fails serialization, returns false, and its segment is
gone. -/
theorem flushFieldTo_behavior_witness :
    FieldStore.flushFieldTo fsW4 99 = (fsW4, false, []) ∧
    (FieldStore.flushFieldTo fsW4 1).2.2 =
      [{ fieldID := 9, fieldType := FieldType.sum, data := [7],
         startSlot := 2, endSlot := 3 }] ∧
    ((FieldStore.flushFieldTo fsW4 1).1.flushFieldTo 1).2.1 = false ∧
    (FieldStore.flushFieldTo fsW4 4).2.1 = false ∧
    getSStore (FieldStore.flushFieldTo fsW4 4).1.sStoreNodes 4 = none := by
  have h99 := (flushFieldTo_behavior fsW4 99 (by decide)).1 (by decide)
  have h1 := (flushFieldTo_behavior fsW4 1 (by decide)).2.1 segA [7] 2 3
    (by decide) (by decide)
  have h4 := (flushFieldTo_behavior fsW4 4 (by decide)).2.2 segB "ser"
    (by decide) (by decide)
  refine ⟨h99, ?_, ?_, ?_, h4.2⟩
  · rw [h1.1]; rfl
  · rw [h1.2]
  · rw [h4.1]

theorem write_sum_facts (fs : FieldStore) (v : Int) (wc : WriteContext)
    (hInv : SortedNodes fs.sStoreNodes) :
    SortedNodes ((fs.write (PBField.sum v) wc).sStoreNodes) ∧
    valuesAt (fs.write (PBField.sum v) wc) wc.familyTime =
      valuesAt fs wc.familyTime ++ [v] ∧
    wc.familyTime ∈ famTimes ((fs.write (PBField.sum v) wc).sStoreNodes) ∧
    (∀ t, t ∈ famTimes fs.sStoreNodes →
      t ∈ famTimes ((fs.write (PBField.sum v) wc).sStoreNodes)) := by
  cases hget : getSStore fs.sStoreNodes wc.familyTime with
  | some s =>
    obtain ⟨hx, hf⟩ := (getSStore_some_iff _ _ _).mp hget
    have hnodes : (fs.write (PBField.sum v) wc).sStoreNodes =
        fs.sStoreNodes.set (sSearch fs.sStoreNodes wc.familyTime) (s.writeFloat v) := by
      simp [FieldStore.write, hget]
    have hft : famTimes ((fs.write (PBField.sum v) wc).sStoreNodes) =
        famTimes fs.sStoreNodes := by
      rw [hnodes]
      exact famTimes_set_writeFloat _ _ s v hx
    refine ⟨?_, ?_, ?_, ?_⟩
    · unfold SortedNodes
      rw [hft]
      exact hInv
    · rw [valuesAt, valuesAt, hget, hnodes,
        getSStore_set_writeFloat fs.sStoreNodes wc.familyTime s v hget]
      rfl
    · rw [hft, ← hf]
      exact List.mem_map_of_mem SStore.familyTime (getSStore_mem _ _ _ hget).1
    · intro t ht
      rw [hft]
      exact ht
  | none =>
    have hfresh : wc.familyTime ∉ famTimes fs.sStoreNodes :=
      not_mem_of_getSStore_none fs.sStoreNodes hInv wc.familyTime hget
    have hnodes : (fs.write (PBField.sum v) wc).sStoreNodes =
        insertSStore fs.sStoreNodes ((newSimpleFieldStore wc.familyTime).writeFloat v) := by
      simp [FieldStore.write, hget]
    have hperm := famTimes_insertSStore_perm fs.sStoreNodes
      ((newSimpleFieldStore wc.familyTime).writeFloat v)
    have hkey : ((newSimpleFieldStore wc.familyTime).writeFloat v).familyTime =
        wc.familyTime := rfl
    have hfresh' : ((newSimpleFieldStore wc.familyTime).writeFloat v).familyTime ∉
        famTimes fs.sStoreNodes := by rw [hkey]; exact hfresh
    have hins := getSStore_insertSStore fs.sStoreNodes
      ((newSimpleFieldStore wc.familyTime).writeFloat v) hInv hfresh'
    rw [hkey] at hins
    refine ⟨?_, ?_, ?_, ?_⟩
    · rw [hnodes]
      exact insertSStore_sorted _ _ hInv hfresh'
    · rw [valuesAt, valuesAt, hget, hnodes, hins]
      rfl
    · rw [hnodes]
      exact hperm.mem_iff.mpr
        (List.mem_append.mpr (Or.inr (List.mem_singleton.mpr rfl)))
    · intro t ht
      rw [hnodes]
      exact hperm.mem_iff.mpr (List.mem_append.mpr (Or.inl ht))

/-- C9: from any store satisfying the invariant, `write` and `flushFieldTo`
preserve it (segments sorted strictly ascending by family time, hence at
most one per family time); a Sum write appends its value to the segment of
its family time, so two writes with one family time land in one segment,
while writes with two distinct family times leave both segments present in
the sorted list. -/
theorem fieldStore_sorted_invariant (fs : FieldStore)
    (hInv : SortedNodes fs.sStoreNodes) :
    (∀ f wc, SortedNodes ((fs.write f wc).sStoreNodes)) ∧
    (∀ t, SortedNodes ((fs.flushFieldTo t).1.sStoreNodes)) ∧
    (∀ v wc, valuesAt (fs.write (PBField.sum v) wc) wc.familyTime =
      valuesAt fs wc.familyTime ++ [v]) ∧
    (∀ v1 v2 wc, valuesAt ((fs.write (PBField.sum v1) wc).write (PBField.sum v2) wc)
      wc.familyTime = valuesAt fs wc.familyTime ++ [v1, v2]) ∧
    (∀ v1 v2 wc1 wc2,
      SortedNodes (((fs.write (PBField.sum v1) wc1).write (PBField.sum v2) wc2).sStoreNodes) ∧
      wc1.familyTime ∈
        famTimes (((fs.write (PBField.sum v1) wc1).write (PBField.sum v2) wc2).sStoreNodes) ∧
      wc2.familyTime ∈
        famTimes (((fs.write (PBField.sum v1) wc1).write (PBField.sum v2) wc2).sStoreNodes)) := by
  refine ⟨?_, ?_, ?_, ?_, ?_⟩
  · intro f wc
    cases f with
    | sum v => exact (write_sum_facts fs v wc hInv).1
    | other => exact hInv
  · intro t
    cases hget : getSStore fs.sStoreNodes t with
    | none => simpa [FieldStore.flushFieldTo, hget] using hInv
    | some s =>
      cases hb : s.bytesRes with
      | error e =>
        simp only [FieldStore.flushFieldTo, hget, hb]
        exact removeSStore_sorted fs.sStoreNodes hInv t
      | ok p =>
        obtain ⟨data, ss, es⟩ := p
        simp only [FieldStore.flushFieldTo, hget, hb]
        exact removeSStore_sorted fs.sStoreNodes hInv t
  · intro v wc
    exact (write_sum_facts fs v wc hInv).2.1
  · intro v1 v2 wc
    have h1 := write_sum_facts fs v1 wc hInv
    have h2 := write_sum_facts (fs.write (PBField.sum v1) wc) v2 wc h1.1
    rw [h2.2.1, h1.2.1, List.append_assoc]
    rfl
  · intro v1 v2 wc1 wc2
    have h1 := write_sum_facts fs v1 wc1 hInv
    have h2 := write_sum_facts (fs.write (PBField.sum v1) wc1) v2 wc2 h1.1
    exact ⟨h2.1, h2.2.2.2 wc1.familyTime h1.2.2.1, h2.2.2.1⟩

/-- Witness for C9: starting from an empty store, two Sum writes at family
time 100 land in one segment holding both values; writes at 100 then 50
leave the family times sorted as [50, 100]. -/
theorem fieldStore_sorted_invariant_witness :
    valuesAt ((FieldStore.write (newFieldStore "cpu" 3 FieldType.sum)
        (PBField.sum 7) { familyTime := 100 }).write
        (PBField.sum 8) { familyTime := 100 }) 100 = [7, 8] ∧
    SortedNodes (((newFieldStore "cpu" 3 FieldType.sum).write
        (PBField.sum 7) { familyTime := 100 }).write
        (PBField.sum 8) { familyTime := 50 }).sStoreNodes ∧
    famTimes (((newFieldStore "cpu" 3 FieldType.sum).write
        (PBField.sum 7) { familyTime := 100 }).write
        (PBField.sum 8) { familyTime := 50 }).sStoreNodes = [50, 100] := by
  have h := fieldStore_sorted_invariant (newFieldStore "cpu" 3 FieldType.sum) (by decide)
  refine ⟨?_, ?_, by decide⟩
  · exact (h.2.2.2.1 7 8 { familyTime := 100 }).trans (by decide)
  · exact (h.2.2.2.2 7 8 { familyTime := 100 } { familyTime := 50 }).1

/-- C10: a write whose record carries any field kind other than Sum leaves
the field store completely unchanged (and the Go method returns nothing, so
no error reaches the caller). -/
theorem write_other_noop (fs : FieldStore) (wc : WriteContext) :
    fs.write PBField.other wc = fs := rfl

end LinDB
